import Mathlib

/-!
Verification of the PDF image-extraction backend (`src/backend/main.py`).

The development shallowly embeds the extraction pipeline
`extract_images_from_pdf` and the HTTP endpoint `extract_images`.
The third-party collaborators (PyMuPDF / `fitz` and PIL) are modelled by an
explicit environment `PDFEnv`: page enumeration, image resolution by xref,
decoding, and re-encoding are abstract functions supplied by the
environment; a Python exception raised by a collaborator is modelled as
`none` / `Except.error`.
-/

/-- One pixel of a decoded image. Channels are 0–255 values; `a` is the
alpha channel. For modes without an alpha channel PIL still lets the pixel
be viewed as a colour; the stored `Pixel` always records the colour the
pixel represents, plus its alpha. -/
structure Pixel where
  r : Nat
  g : Nat
  b : Nat
  a : Nat
  deriving DecidableEq

/-- Result of `pdf_document.extract_image(xref)` (PyMuPDF): the raw embedded
bytes and the declared extension (`base_image["image"]`, `base_image["ext"]`,
main.py lines 67–69). -/
structure RawImage where
  bytes : List Nat
  ext : String
  deriving DecidableEq

/-- A decoded PIL image (`Image.open`, main.py line 76): pixel dimensions,
colour mode string (e.g. "RGB", "RGBA", "L", "LA", "P"), and the pixel
buffer. -/
structure PILImage where
  width : Nat
  height : Nat
  mode : String
  pixels : List Pixel
  deriving DecidableEq

/-- The output record appended at main.py lines 103–107:
`{"pageNumber": ..., "imageIndex": ..., "url": ...}`. -/
structure ExtractedImageRecord where
  pageNumber : Nat
  imageIndex : Nat
  url : String
  deriving DecidableEq

/-- Abstract environment standing for the opened document and the image
library, the external collaborators of the pipeline.

* `openError` — `some e` when `fitz.open` raises with message `e`
  (main.py line 41).
* `pages` — per page, either the list of xrefs returned by
  `page.get_images(full=True)` (each `img_info[0]`, lines 50–58), or
  `Except.error e` when accessing/enumerating that page raises.
* `extract_image` — `pdf_document.extract_image(xref)` (line 67); `none`
  models an exception during resolution.
* `image_open` — `Image.open(io.BytesIO(bytes))` (line 76); `none` models a
  decode failure.
* `save` — `img.save(buffer, format, quality, method)` (line 95): the bytes
  the encoder writes for a given normalized image, format string, quality
  and method settings. -/
structure PDFEnv where
  openError : Option String
  pages : List (Except String (List Nat))
  extract_image : Nat → Option RawImage
  image_open : List Nat → Option PILImage
  save : PILImage → String → Nat → Nat → List Nat

/-- Alpha blend of one channel: background `bg` and foreground `fg`
weighted by the 0–255 alpha mask value `a`. This is PIL's `paste` blend for
an "L"-mode mask. -/
def blendChannel (bg fg a : Nat) : Nat :=
  (bg * (255 - a) + fg * a) / 255

/-- Pasting a pixel onto an opaque white background using its own alpha
channel as the mask (main.py lines 85–86: white `Image.new` plus
`paste(img, mask=alpha)`); the result is opaque. -/
def pasteWhite (p : Pixel) : Pixel :=
  { r := blendChannel 255 p.r p.a
    g := blendChannel 255 p.g p.a
    b := blendChannel 255 p.b p.a
    a := 255 }

/-- The RGBA branch of normalization (main.py lines 83–87): composite the
whole image onto an opaque white background, producing an RGB buffer. -/
def compositeOnWhite (img : PILImage) : PILImage :=
  { img with mode := "RGB", pixels := img.pixels.map pasteWhite }

/-- Modelled PIL semantics of `Image.convert("RGB")` (main.py lines 89 and
91): each pixel keeps the colour it represents (for palette mode this is
the palette-resolved colour, which is how `pixels` is stored) and any alpha
channel is discarded — PIL does not composite when converting, it simply
drops alpha, leaving the result opaque. -/
def pilConvertRGB (img : PILImage) : PILImage :=
  { img with mode := "RGB", pixels := img.pixels.map fun p => { p with a := 255 } }

/-- Colour normalization, main.py lines 82–91: `"RGBA"` is composited onto
white; palette mode `"P"` is converted to RGB; any mode other than `"RGB"`
and `"L"` is converted to RGB; `"RGB"` and `"L"` pass through unchanged. -/
def normalizeColor (img : PILImage) : PILImage :=
  if img.mode = "RGBA" then compositeOnWhite img
  else if img.mode = "P" then pilConvertRGB img
  else if ¬ (img.mode = "RGB" ∨ img.mode = "L") then pilConvertRGB img
  else img

/-- PIL colour modes that carry an alpha channel. -/
def hasAlphaChannel (mode : String) : Bool :=
  mode = "RGBA" || mode = "LA" || mode = "PA"

/-- The 64 characters of the standard base64 alphabet. -/
def base64Alphabet : List Char :=
  "ABCDEFGHIJKLMNOPQRSTUVWXYZabcdefghijklmnopqrstuvwxyz0123456789+/".data

/-- The base64 character for a 6-bit value. -/
def base64Digit (n : Nat) : Char :=
  base64Alphabet.getD n 'A'

/-- Standard base64 of a byte list (`base64.b64encode`, main.py line 99),
three bytes to four characters with `=` padding. -/
def base64Chunks : List Nat → List Char
  | [] => []
  | [a] =>
      [base64Digit (a / 4 % 64), base64Digit (a % 4 * 16), '=', '=']
  | [a, b] =>
      [base64Digit (a / 4 % 64), base64Digit (a % 4 * 16 + b / 16 % 16),
       base64Digit (b % 16 * 4), '=']
  | a :: b :: c :: rest =>
      base64Digit (a / 4 % 64) :: base64Digit (a % 4 * 16 + b / 16 % 16) ::
      base64Digit (b % 16 * 4 + c / 64 % 4) :: base64Digit (c % 64) ::
      base64Chunks rest

/-- Base64 encoding as a string. -/
def base64Encode (bs : List Nat) : String :=
  ⟨base64Chunks bs⟩

/-- The mutable state of the extraction loop (main.py lines 35–37):
accumulated records, the accepted-image counter `image_index`, and the
dedup set `seen_xrefs`. Two instrumentation fields make provenance and
resolution attempts observable: each record is paired with the xref it came
from, and `calls` records every xref passed to `extract_image`. -/
structure LoopState where
  images : List (Nat × ExtractedImageRecord)
  image_index : Nat
  seen_xrefs : List Nat
  calls : List Nat
  deriving DecidableEq

/-- Initial loop state (main.py lines 35–37). -/
def initState : LoopState :=
  { images := [], image_index := 0, seen_xrefs := [], calls := [] }

/-- Processing of one candidate xref on page `pageNum` (0-based), main.py
lines 55–111. The inner `try` means every failure (`none` from the
environment) degrades to a skip that keeps the accumulated state. The xref
is added to `seen_xrefs` (line 64) before `extract_image` is called
(line 67); `calls` records that invocation. -/
def processCandidate (env : PDFEnv) (pageNum : Nat) (s : LoopState) (xref : Nat) :
    LoopState :=
  if xref ∈ s.seen_xrefs then s
  else
    let s1 : LoopState :=
      { s with seen_xrefs := s.seen_xrefs ++ [xref], calls := s.calls ++ [xref] }
    match env.extract_image xref with
    | none => s1
    | some raw =>
      if raw.bytes.length < 100 then s1
      else
        match env.image_open raw.bytes with
        | none => s1
        | some pil =>
          if pil.width < 10 ∨ pil.height < 10 then s1
          else
            let norm := normalizeColor pil
            let data := env.save norm "WEBP" 85 6
            let url := "data:image/webp;base64," ++ base64Encode data
            { s1 with
              image_index := s1.image_index + 1,
              images := s1.images ++
                [(xref, { pageNumber := pageNum + 1,
                          imageIndex := s1.image_index + 1, url := url })] }

/-- `processCandidate` on a (page, xref) pair, the step of the flattened
candidate stream. -/
def stepC (env : PDFEnv) (s : LoopState) (c : Nat × Nat) : LoopState :=
  processCandidate env c.1 s c.2

/-- The page loop of main.py lines 43–111: walk the remaining pages
(`pageNum` is the index of the head). A page whose enumeration raises
aborts the whole loop with that error (the exception escapes to the
handler at line 115); otherwise every xref of the page is processed in
order. -/
def runPagesAux (env : PDFEnv) :
    List (Except String (List Nat)) → Nat → LoopState → Except String LoopState
  | [], _, s => .ok s
  | p :: rest, pageNum, s =>
    match p with
    | .error e => .error e
    | .ok xrefs => runPagesAux env rest (pageNum + 1) (xrefs.foldl (processCandidate env pageNum) s)

/-- Decidable equality for `Except` values, component-wise. -/
def exceptDecEq [DecidableEq ε] [DecidableEq α] : DecidableEq (Except ε α)
  | .error a, .error b =>
    if h : a = b then .isTrue (by rw [h]) else .isFalse (by simp [h])
  | .error _, .ok _ => .isFalse (by simp)
  | .ok _, .error _ => .isFalse (by simp)
  | .ok a, .ok b =>
    if h : a = b then .isTrue (by rw [h]) else .isFalse (by simp [h])

instance [DecidableEq ε] [DecidableEq α] : DecidableEq (Except ε α) := exceptDecEq

/-- Observable outcome of one pipeline run: the returned list (paired with
provenance xrefs) or the raised message, plus whether the document handle
was ever opened and whether `close()` was reached. -/
structure PipeOutcome where
  result : Except String (List (Nat × ExtractedImageRecord))
  docOpened : Bool
  docClosed : Bool
  deriving DecidableEq

/-- The message raised at main.py line 119 when no image survives. -/
def noImagesMsg : String :=
  "No embedded images found in this PDF. The PDF may only contain text or vector graphics."

/-- The pipeline `extract_images_from_pdf` (main.py lines 30–121). An
exception from opening or from the page loop is re-raised as
`"Error processing PDF: " ++ cause` (line 116) — note that on that path
`pdf_document.close()` (line 113) has not run, since it sits inside the
`try` after the loop. An empty surviving list raises `noImagesMsg`
(lines 118–119) after the document was closed. -/
def extract_images_from_pdf (env : PDFEnv) : PipeOutcome :=
  match env.openError with
  | some e =>
    { result := .error ("Error processing PDF: " ++ e), docOpened := false, docClosed := false }
  | none =>
    match runPagesAux env env.pages 0 initState with
    | .error e =>
      { result := .error ("Error processing PDF: " ++ e), docOpened := true, docClosed := false }
    | .ok s =>
      if s.images.isEmpty then
        { result := .error noImagesMsg, docOpened := true, docClosed := true }
      else
        { result := .ok s.images, docOpened := true, docClosed := true }

/-- An HTTP error response (`HTTPException`). -/
structure HttpError where
  status : Nat
  detail : String
  deriving DecidableEq

/-- The JSON body returned on success (main.py lines 145–149). -/
structure SuccessBody where
  success : Bool
  images : List ExtractedImageRecord
  totalImages : Nat
  deriving DecidableEq

/-- Observable outcome of one request to the endpoint: the response, and
whether the temporary file was created / deleted and whether document
parsing was attempted. -/
structure EndpointOutcome where
  response : Except HttpError SuccessBody
  tmpCreated : Bool
  tmpDeleted : Bool
  docParsed : Bool
  deriving DecidableEq

/-- The content-type guard of main.py line 131:
`not file.content_type or file.content_type != "application/pdf"` rejects;
`none` models a missing content type, and the empty string is falsy. -/
def validPdfContentType : Option String → Bool
  | none => false
  | some s => !(s == "") && (s == "application/pdf")

/-- Tests whether the first list starts the second. -/
def listStartCheck : List Char → List Char → Bool
  | [], _ => true
  | _ :: _, [] => false
  | a :: l₁, b :: l₂ => a == b && listStartCheck l₁ l₂

/-- Tests whether the first list occurs contiguously inside the second. -/
def listInsideCheck : List Char → List Char → Bool
  | l₁, [] => listStartCheck l₁ []
  | l₁, c :: rest => listStartCheck l₁ (c :: rest) || listInsideCheck l₁ rest

/-- Substring test, modelling Python's `in` on strings (main.py line 153). -/
def containsSubstr (needle hay : String) : Bool :=
  listInsideCheck needle.data hay.data

/-- The endpoint `POST /api/extract-images` (main.py lines 124–158): the
content-type guard runs before any temp-file handling or parsing; the
temporary file is written, the pipeline runs, and its exception message is
mapped to status 400 when it contains `"No embedded images found"`,
otherwise 500 (line 153); the `finally` always deletes the temporary
file. -/
def extract_images (contentType : Option String) (env : PDFEnv) : EndpointOutcome :=
  if !(validPdfContentType contentType) then
    { response := .error { status := 400, detail := "File must be a PDF" },
      tmpCreated := false, tmpDeleted := false, docParsed := false }
  else
    let out := extract_images_from_pdf env
    match out.result with
    | .ok pairs =>
      { response := .ok { success := true, images := pairs.map Prod.snd,
                          totalImages := pairs.length },
        tmpCreated := true, tmpDeleted := true, docParsed := true }
    | .error msg =>
      { response := .error
          { status := if containsSubstr "No embedded images found" msg then 400 else 500,
            detail := msg },
        tmpCreated := true, tmpDeleted := true, docParsed := true }

/-- The acceptance filter chain of main.py lines 67–80 for one xref, as a
single function: `some pil` when resolution succeeds, the raw byte length
is at least 100, decoding succeeds and both decoded dimensions are at
least 10; `none` when any step skips. Because the environment is a pure
function of the xref, this also decides what happens at the unique
processing attempt for that xref. -/
def resolveCandidate (env : PDFEnv) (x : Nat) : Option PILImage :=
  match env.extract_image x with
  | none => none
  | some raw =>
    if raw.bytes.length < 100 then none
    else
      match env.image_open raw.bytes with
      | none => none
      | some pil => if pil.width < 10 ∨ pil.height < 10 then none else some pil

/-- The data URL built at lines 93–100 for an accepted decoded image. -/
def dataUrl (env : PDFEnv) (pil : PILImage) : String :=
  "data:image/webp;base64," ++ base64Encode (env.save (normalizeColor pil) "WEBP" 85 6)

/-- Page index attached to the first occurrence of xref `x` in a candidate
stream of (page index, xref) pairs. -/
def firstOcc (x : Nat) : List (Nat × Nat) → Option Nat
  | [] => none
  | c :: rest => if c.2 = x then some c.1 else firstOcc x rest

/-- Index of the first page whose xref list mentions `x`. -/
def firstPageIdx (x : Nat) : List (List Nat) → Option Nat
  | [] => none
  | page :: rest => if x ∈ page then some 0 else (firstPageIdx x rest).map (· + 1)

/-- The flattened enumeration order of candidates: pages in order starting
at index `k`, and within a page the xrefs in the order the document lists
them. -/
def candStream : Nat → List (List Nat) → List (Nat × Nat)
  | _, [] => []
  | k, page :: rest => page.map (fun x => (k, x)) ++ candStream (k + 1) rest

/-- Loop invariant tying the state to the already-processed candidate
prefix `done`. -/
structure LoopInv (env : PDFEnv) (done : List (Nat × Nat)) (s : LoopState) : Prop where
  idx_eq : s.image_index = s.images.length
  idx_seq : s.images.map (fun pr => pr.2.imageIndex) = List.range' 1 s.images.length
  seen_iff : ∀ y, y ∈ s.seen_xrefs ↔ y ∈ done.map Prod.snd
  calls_sub : ∀ y, y ∈ s.calls → y ∈ s.seen_xrefs
  calls_nodup : s.calls.Nodup
  xrefs_nodup : (s.images.map Prod.fst).Nodup
  prov : ∀ pr ∈ s.images, ∃ pil, resolveCandidate env pr.1 = some pil ∧
    pr.2.url = dataUrl env pil ∧
    ∃ i, firstOcc pr.1 done = some i ∧ pr.2.pageNumber = i + 1
  pages_mono : List.Pairwise (fun a b => a ≤ b) (s.images.map (fun pr => pr.2.pageNumber))

/-- A resolvable but under-100-byte candidate (fails the size floor). -/
def rawSmall : RawImage := { bytes := [0], ext := "png" }

/-- A candidate that passes the 100-byte size floor. -/
def rawBig : RawImage := { bytes := List.replicate 100 1, ext := "png" }

/-- A decoded 20×20 RGB image, passing the dimension floor. -/
def pilW : PILImage := { width := 20, height := 20, mode := "RGB", pixels := [] }

/-- Concrete document: xref 7 (under the size floor) referenced on pages 1
and 2, xref 8 (accepted) on page 3. -/
def envC1 : PDFEnv :=
  { openError := none
    pages := [Except.ok [7], Except.ok [7], Except.ok [8]]
    extract_image := fun x => if x = 7 then some rawSmall else if x = 8 then some rawBig else none
    image_open := fun _ => some pilW
    save := fun _ _ _ _ => [1, 2, 3] }

/-- The record the pipeline produces on `envC1`. -/
def recC1 : ExtractedImageRecord :=
  { pageNumber := 3, imageIndex := 1, url := "data:image/webp;base64,AQID" }

/-- The loop state after walking all pages of `envC1`. -/
def sC1 : LoopState :=
  { images := [(8, recC1)], image_index := 1, seen_xrefs := [7, 8], calls := [7, 8] }

/-- Concrete document with a single page holding a single unresolvable
xref: nothing survives filtering. -/
def envW2 : PDFEnv :=
  { openError := none
    pages := [Except.ok [5]]
    extract_image := fun _ => none
    image_open := fun _ => none
    save := fun _ _ _ _ => [] }

/-- Concrete document that opens fine but whose only page raises during
image enumeration. -/
def envC6 : PDFEnv :=
  { openError := none
    pages := [Except.error "cannot parse page"]
    extract_image := fun _ => none
    image_open := fun _ => none
    save := fun _ _ _ _ => [] }

/-- A 16×16 grayscale-plus-alpha ("LA") image with a single fully
transparent black pixel. -/
def laImage : PILImage :=
  { width := 16, height := 16, mode := "LA", pixels := [{ r := 0, g := 0, b := 0, a := 0 }] }

/-- A 12×12 RGBA image with one semi-transparent pixel. -/
def rgbaImage : PILImage :=
  { width := 12, height := 12, mode := "RGBA", pixels := [{ r := 10, g := 20, b := 30, a := 128 }] }

/-- Claim C1 as stated: whenever a document's pages mention an xref at all,
a successful result contains exactly one record for that xref, with
`pageNumber` the first page (in enumeration order) mentioning it, and no
two records share an xref. -/
def claimC1Statement : Prop :=
  ∀ (env : PDFEnv) (ps : List (List Nat)) (pairs : List (Nat × ExtractedImageRecord)) (x : Nat),
    env.pages = ps.map Except.ok →
    (extract_images_from_pdf env).result = Except.ok pairs →
    (∃ page ∈ ps, x ∈ page) →
    (pairs.map Prod.fst).count x = 1 ∧
    (∀ pr ∈ pairs, pr.1 = x → ∃ i, firstPageIdx x ps = some i ∧ pr.2.pageNumber = i + 1) ∧
    (pairs.map Prod.fst).Nodup

/-- Claim C4 as stated: every decoded image whose colour mode has an alpha
channel is normalized by compositing onto an opaque white background with
the alpha channel as the blend mask (producing an RGB buffer). -/
def claimC4Statement : Prop :=
  ∀ img : PILImage, hasAlphaChannel img.mode = true →
    normalizeColor img = compositeOnWhite img

theorem resolveCandidate_eq_some {env : PDFEnv} {x : Nat} {pil : PILImage} :
    resolveCandidate env x = some pil ↔
      ∃ raw, env.extract_image x = some raw ∧ ¬ raw.bytes.length < 100 ∧
        env.image_open raw.bytes = some pil ∧ ¬ (pil.width < 10 ∨ pil.height < 10) := by
  constructor
  · intro h
    unfold resolveCandidate at h
    split at h
    · simp at h
    · next raw hex =>
      split at h
      · simp at h
      · next h1 =>
        split at h
        · simp at h
        · next pil2 hop =>
          split at h
          · simp at h
          · next h3 =>
            rw [Option.some_inj] at h
            subst h
            exact ⟨raw, hex, h1, hop, h3⟩
  · rintro ⟨raw, hex, h1, hop, h3⟩
    unfold resolveCandidate
    simp [hex, hop, h1, h3]

theorem firstOcc_append_some {x i : Nat} :
    ∀ {l₁ l₂ : List (Nat × Nat)}, firstOcc x l₁ = some i → firstOcc x (l₁ ++ l₂) = some i
  | [], _, h => by simp [firstOcc] at h
  | c :: rest, l₂, h => by
    by_cases hc : c.2 = x
    · simp only [firstOcc, if_pos hc] at h
      rw [List.cons_append]
      simp only [firstOcc, if_pos hc]
      exact h
    · simp only [firstOcc, if_neg hc] at h
      rw [List.cons_append]
      simp only [firstOcc, if_neg hc]
      exact firstOcc_append_some h

theorem firstOcc_append_none {x : Nat} :
    ∀ {l₁ : List (Nat × Nat)} (l₂ : List (Nat × Nat)), firstOcc x l₁ = none →
      firstOcc x (l₁ ++ l₂) = firstOcc x l₂
  | [], l₂, _ => by simp
  | c :: rest, l₂, h => by
    by_cases hc : c.2 = x
    · simp [firstOcc, if_pos hc] at h
    · simp only [firstOcc, if_neg hc] at h
      rw [List.cons_append]
      simp only [firstOcc, if_neg hc]
      exact firstOcc_append_none l₂ h

theorem firstOcc_eq_none {x : Nat} :
    ∀ {l : List (Nat × Nat)}, firstOcc x l = none ↔ x ∉ l.map Prod.snd
  | [] => by simp [firstOcc]
  | c :: rest => by
    by_cases hc : c.2 = x
    · simp [firstOcc, if_pos hc, hc]
    · simp only [firstOcc, if_neg hc]
      rw [firstOcc_eq_none]
      simp only [List.map_cons, List.mem_cons]
      constructor
      · intro h hmem
        rcases hmem with h1 | h1
        · exact hc h1.symm
        · exact h h1
      · intro h hmem
        exact h (Or.inr hmem)

theorem firstOcc_mem {x i : Nat} :
    ∀ {l : List (Nat × Nat)}, firstOcc x l = some i → (i, x) ∈ l
  | [], h => by simp [firstOcc] at h
  | c :: rest, h => by
    by_cases hc : c.2 = x
    · simp only [firstOcc, if_pos hc, Option.some_inj] at h
      have he : (i, x) = c := by
        rw [← h, ← hc]
      rw [he]
      exact List.mem_cons_self c rest
    · simp only [firstOcc, if_neg hc] at h
      exact List.mem_cons_of_mem c (firstOcc_mem h)

theorem processCandidate_cases (env : PDFEnv) (p : Nat) (s : LoopState) (x : Nat) :
    (x ∈ s.seen_xrefs ∧ processCandidate env p s x = s) ∨
    (x ∉ s.seen_xrefs ∧ resolveCandidate env x = none ∧
      processCandidate env p s x =
        { s with seen_xrefs := s.seen_xrefs ++ [x], calls := s.calls ++ [x] }) ∨
    (x ∉ s.seen_xrefs ∧ ∃ pil, resolveCandidate env x = some pil ∧
      processCandidate env p s x =
        { images := s.images ++ [(x,
            { pageNumber := p + 1, imageIndex := s.image_index + 1, url := dataUrl env pil })],
          image_index := s.image_index + 1,
          seen_xrefs := s.seen_xrefs ++ [x],
          calls := s.calls ++ [x] }) := by
  by_cases hx : x ∈ s.seen_xrefs
  · exact Or.inl ⟨hx, by simp [processCandidate, hx]⟩
  · cases hex : env.extract_image x with
    | none =>
      refine Or.inr (Or.inl ⟨hx, ?_, ?_⟩)
      · simp [resolveCandidate, hex]
      · simp [processCandidate, hx, hex]
    | some raw =>
      by_cases h1 : raw.bytes.length < 100
      · refine Or.inr (Or.inl ⟨hx, ?_, ?_⟩)
        · simp [resolveCandidate, hex, h1]
        · simp [processCandidate, hx, hex, h1]
      · cases hop : env.image_open raw.bytes with
        | none =>
          refine Or.inr (Or.inl ⟨hx, ?_, ?_⟩)
          · simp [resolveCandidate, hex, h1, hop]
          · simp [processCandidate, hx, hex, h1, hop]
        | some pil =>
          by_cases h3 : pil.width < 10 ∨ pil.height < 10
          · refine Or.inr (Or.inl ⟨hx, ?_, ?_⟩)
            · simp [resolveCandidate, hex, h1, hop, h3]
            · simp [processCandidate, hx, hex, h1, hop, h3]
          · refine Or.inr (Or.inr ⟨hx, pil, ?_, ?_⟩)
            · simp [resolveCandidate, hex, h1, hop, h3]
            · simp [processCandidate, dataUrl, hx, hex, h1, hop, h3]

theorem nodupConcat {α : Type} {l : List α} {a : α} (h : l.Nodup) (ha : a ∉ l) :
    (l ++ [a]).Nodup := by
  rw [List.nodup_append]
  refine ⟨h, List.nodup_singleton a, ?_⟩
  intro x hx hxa
  rw [List.mem_singleton] at hxa
  subst hxa
  exact ha hx

theorem pairwiseConcat {α : Type} {R : α → α → Prop} {l : List α} {a : α}
    (h : List.Pairwise R l) (ha : ∀ b ∈ l, R b a) : List.Pairwise R (l ++ [a]) := by
  rw [List.pairwise_append]
  refine ⟨h, List.pairwise_singleton R a, ?_⟩
  intro b hb c hc
  rw [List.mem_singleton] at hc
  subst hc
  exact ha b hb

theorem inv_step (env : PDFEnv) (done : List (Nat × Nat)) (s : LoopState) (c : Nat × Nat)
    (hinv : LoopInv env done s) (hle : ∀ d ∈ done, d.1 ≤ c.1) :
    LoopInv env (done ++ [c]) (stepC env s c) := by
  have snd_append : ∀ y, y ∈ (done ++ [c]).map Prod.snd ↔ y ∈ done.map Prod.snd ∨ y = c.2 := by
    intro y
    simp [List.mem_append]
  rcases processCandidate_cases env c.1 s c.2 with ⟨hx, heq⟩ | ⟨hx, hres, heq⟩ |
    ⟨hx, pil, hres, heq⟩
  · -- the xref was already seen: pure skip, state unchanged
    have hmem : c.2 ∈ done.map Prod.snd := (hinv.seen_iff c.2).mp hx
    simp only [stepC]
    rw [heq]
    refine ⟨hinv.idx_eq, hinv.idx_seq, ?_, hinv.calls_sub, hinv.calls_nodup,
      hinv.xrefs_nodup, ?_, hinv.pages_mono⟩
    · intro y
      rw [hinv.seen_iff y, snd_append y]
      constructor
      · exact fun h => Or.inl h
      · rintro (h | h)
        · exact h
        · rw [h]; exact hmem
    · intro pr hpr
      obtain ⟨pil2, h1, h2, i, h3, h4⟩ := hinv.prov pr hpr
      exact ⟨pil2, h1, h2, i, firstOcc_append_some h3, h4⟩
  · -- first occurrence, but the candidate is skipped by the filters
    simp only [stepC]
    rw [heq]
    refine ⟨hinv.idx_eq, hinv.idx_seq, ?_, ?_, ?_, hinv.xrefs_nodup, ?_, hinv.pages_mono⟩
    · intro y
      rw [snd_append y]
      show y ∈ s.seen_xrefs ++ [c.2] ↔ _
      rw [List.mem_append, List.mem_singleton, hinv.seen_iff y]
    · intro y hy
      show y ∈ s.seen_xrefs ++ [c.2]
      rcases List.mem_append.mp hy with h | h
      · exact List.mem_append.mpr (Or.inl (hinv.calls_sub y h))
      · exact List.mem_append.mpr (Or.inr h)
    · exact nodupConcat hinv.calls_nodup (fun hcl => hx (hinv.calls_sub c.2 hcl))
    · intro pr hpr
      obtain ⟨pil2, h1, h2, i, h3, h4⟩ := hinv.prov pr hpr
      exact ⟨pil2, h1, h2, i, firstOcc_append_some h3, h4⟩
  · -- first occurrence, accepted: a record is appended
    simp only [stepC]
    rw [heq]
    have hnotdone : c.2 ∉ done.map Prod.snd :=
      fun hm => hx ((hinv.seen_iff c.2).mpr hm)
    refine ⟨?_, ?_, ?_, ?_, ?_, ?_, ?_, ?_⟩
    · show s.image_index + 1 = (s.images ++ [_]).length
      rw [List.length_append, hinv.idx_eq]
      rfl
    · show (s.images ++ [_]).map _ = List.range' 1 (s.images ++ [_]).length
      rw [List.map_append, hinv.idx_seq, List.length_append]
      simp only [List.map_cons, List.map_nil, List.length_cons, List.length_nil]
      rw [List.range'_1_concat]
      rw [hinv.idx_eq]
      simp [Nat.add_comm]
    · intro y
      rw [snd_append y]
      show y ∈ s.seen_xrefs ++ [c.2] ↔ _
      rw [List.mem_append, List.mem_singleton, hinv.seen_iff y]
    · intro y hy
      show y ∈ s.seen_xrefs ++ [c.2]
      rcases List.mem_append.mp hy with h | h
      · exact List.mem_append.mpr (Or.inl (hinv.calls_sub y h))
      · exact List.mem_append.mpr (Or.inr h)
    · exact nodupConcat hinv.calls_nodup (fun hcl => hx (hinv.calls_sub c.2 hcl))
    · show ((s.images ++ [_]).map Prod.fst).Nodup
      rw [List.map_append]
      simp only [List.map_cons, List.map_nil]
      refine nodupConcat hinv.xrefs_nodup ?_
      intro hmem
      rw [List.mem_map] at hmem
      obtain ⟨pr, hpr, hfst⟩ := hmem
      obtain ⟨pil2, _, _, i, h3, _⟩ := hinv.prov pr hpr
      have hin : (i, pr.1) ∈ done := firstOcc_mem h3
      have hsnd : pr.1 ∈ done.map Prod.snd := List.mem_map.mpr ⟨(i, pr.1), hin, rfl⟩
      rw [hfst] at hsnd
      exact hnotdone hsnd
    · intro pr hpr
      rcases List.mem_append.mp hpr with h | h
      · obtain ⟨pil2, h1, h2, i, h3, h4⟩ := hinv.prov pr h
        exact ⟨pil2, h1, h2, i, firstOcc_append_some h3, h4⟩
      · rw [List.mem_singleton] at h
        subst h
        refine ⟨pil, hres, rfl, c.1, ?_, rfl⟩
        have hnone : firstOcc c.2 done = none := firstOcc_eq_none.mpr hnotdone
        rw [firstOcc_append_none [c] hnone]
        simp [firstOcc]
    · show List.Pairwise _ ((s.images ++ [_]).map _)
      rw [List.map_append]
      simp only [List.map_cons, List.map_nil]
      refine pairwiseConcat hinv.pages_mono ?_
      intro b hb
      rw [List.mem_map] at hb
      obtain ⟨pr, hpr, hpn⟩ := hb
      obtain ⟨pil2, _, _, i, h3, h4⟩ := hinv.prov pr hpr
      have hin : (i, pr.1) ∈ done := firstOcc_mem h3
      have hic : i ≤ c.1 := hle (i, pr.1) hin
      rw [← hpn, h4]
      omega

theorem initInv (env : PDFEnv) : LoopInv env [] initState := by
  refine ⟨rfl, rfl, ?_, ?_, List.nodup_nil, List.nodup_nil, ?_, List.Pairwise.nil⟩
  · intro y
    simp [initState]
  · intro y hy
    simp [initState] at hy
  · intro pr hpr
    simp [initState] at hpr

theorem pairwiseConst {α : Type} {R : α → α → Prop} (hR : ∀ a b, R a b) :
    ∀ l : List α, List.Pairwise R l
  | [] => List.Pairwise.nil
  | a :: l => List.Pairwise.cons (fun b _ => hR a b) (pairwiseConst hR l)

theorem inv_fold (env : PDFEnv) :
    ∀ (cs done : List (Nat × Nat)) (s : LoopState),
      LoopInv env done s →
      (∀ c ∈ cs, ∀ d ∈ done, d.1 ≤ c.1) →
      List.Pairwise (fun a b => a.1 ≤ b.1) cs →
      LoopInv env (done ++ cs) (cs.foldl (stepC env) s)
  | [], done, s, h, _, _ => by simpa using h
  | c :: cs, done, s, h, hle, hmono => by
    rw [List.pairwise_cons] at hmono
    have h1 : LoopInv env (done ++ [c]) (stepC env s c) :=
      inv_step env done s c h (hle c (List.mem_cons_self c cs))
    have hle2 : ∀ c' ∈ cs, ∀ d ∈ done ++ [c], d.1 ≤ c'.1 := by
      intro c' hc' d hd
      rcases List.mem_append.mp hd with hd | hd
      · exact hle c' (List.mem_cons_of_mem c hc') d hd
      · rw [List.mem_singleton] at hd
        subst hd
        exact hmono.1 c' hc'
    have h2 := inv_fold env cs (done ++ [c]) (stepC env s c) h1 hle2 hmono.2
    rw [List.append_assoc] at h2
    simpa using h2

theorem candStream_mem : ∀ {ps : List (List Nat)} {k : Nat} {c : Nat × Nat},
    c ∈ candStream k ps → k ≤ c.1 ∧ c.1 < k + ps.length
  | [], _, _, h => by simp [candStream] at h
  | page :: rest, k, c, h => by
    simp only [candStream, List.mem_append] at h
    rcases h with h | h
    · rw [List.mem_map] at h
      obtain ⟨x, _, rfl⟩ := h
      simp only [List.length_cons]
      show k ≤ k ∧ k < k + (rest.length + 1)
      omega
    · have := candStream_mem h
      simp only [List.length_cons]
      omega

theorem candStream_mono : ∀ (ps : List (List Nat)) (k : Nat),
    List.Pairwise (fun a b : Nat × Nat => a.1 ≤ b.1) (candStream k ps)
  | [], _ => List.Pairwise.nil
  | page :: rest, k => by
    simp only [candStream]
    rw [List.pairwise_append]
    refine ⟨?_, candStream_mono rest (k + 1), ?_⟩
    · rw [List.pairwise_map]
      exact pairwiseConst (fun a b => Nat.le_refl k) page
    · intro a ha b hb
      rw [List.mem_map] at ha
      obtain ⟨x, _, rfl⟩ := ha
      have := (candStream_mem hb).1
      show k ≤ b.1
      omega

theorem map_snd_pageMap {k : Nat} :
    ∀ {page : List Nat}, (page.map fun y => (k, y)).map Prod.snd = page
  | [] => rfl
  | y :: page => by
    simp only [List.map_cons]
    rw [map_snd_pageMap]

theorem candStream_snd {x : Nat} : ∀ {ps : List (List Nat)} {k : Nat},
    x ∈ (candStream k ps).map Prod.snd ↔ ∃ page ∈ ps, x ∈ page
  | [], k => by simp [candStream]
  | page :: rest, k => by
    simp only [candStream, List.map_append, List.mem_append]
    rw [candStream_snd, map_snd_pageMap]
    constructor
    · rintro (h | h)
      · exact ⟨page, List.mem_cons_self _ _, h⟩
      · obtain ⟨pg, hpg, hx⟩ := h
        exact ⟨pg, List.mem_cons_of_mem _ hpg, hx⟩
    · rintro ⟨pg, hpg, hx⟩
      rcases List.mem_cons.mp hpg with h | h
      · subst h
        exact Or.inl hx
      · exact Or.inr ⟨pg, h, hx⟩

theorem firstOcc_pageMap {x k : Nat} : ∀ {page : List Nat},
    firstOcc x (page.map fun y => (k, y)) = if x ∈ page then some k else none
  | [] => by simp [firstOcc]
  | y :: page => by
    simp only [List.map_cons, firstOcc]
    by_cases hy : y = x
    · subst hy
      simp
    · rw [if_neg hy, firstOcc_pageMap]
      by_cases hx : x ∈ page
      · rw [if_pos hx, if_pos (List.mem_cons_of_mem y hx)]
      · rw [if_neg hx, if_neg ?_]
        intro hmem
        rcases List.mem_cons.mp hmem with h | h
        · exact hy h.symm
        · exact hx h

theorem firstOcc_candStream {x : Nat} : ∀ {ps : List (List Nat)} {k : Nat},
    firstOcc x (candStream k ps) = (firstPageIdx x ps).map (fun i => k + i)
  | [], k => by simp [candStream, firstOcc, firstPageIdx]
  | page :: rest, k => by
    simp only [candStream, firstPageIdx]
    by_cases hx : x ∈ page
    · rw [if_pos hx]
      have hpm : firstOcc x (page.map fun y => (k, y)) = some k := by
        rw [firstOcc_pageMap, if_pos hx]
      rw [firstOcc_append_some hpm]
      rfl
    · rw [if_neg hx]
      have hpm : firstOcc x (page.map fun y => (k, y)) = none := by
        rw [firstOcc_pageMap, if_neg hx]
      rw [firstOcc_append_none _ hpm, firstOcc_candStream]
      cases firstPageIdx x rest with
      | none => rfl
      | some i =>
        simp only [Option.map_some']
        rw [Option.some_inj]
        omega

theorem runPagesAux_map_ok (env : PDFEnv) : ∀ (ps : List (List Nat)) (k : Nat) (s : LoopState),
    runPagesAux env (ps.map Except.ok) k s = .ok ((candStream k ps).foldl (stepC env) s)
  | [], k, s => by simp [runPagesAux, candStream]
  | page :: rest, k, s => by
    have hfold : (page.map fun x => (k, x)).foldl (stepC env) s =
        page.foldl (processCandidate env k) s := by
      rw [List.foldl_map]
      rfl
    simp only [List.map_cons, runPagesAux, candStream, List.foldl_append, hfold]
    exact runPagesAux_map_ok env rest (k + 1) _

theorem runPagesAux_ok (env : PDFEnv) : ∀ (l : List (Except String (List Nat))) (k : Nat)
    (s s' : LoopState), runPagesAux env l k s = .ok s' →
    ∃ ps, l = ps.map Except.ok ∧ s' = (candStream k ps).foldl (stepC env) s
  | [], k, s, s', h => by
    simp only [runPagesAux, Except.ok.injEq] at h
    exact ⟨[], rfl, by simp [candStream, h.symm]⟩
  | p :: rest, k, s, s', h => by
    cases p with
    | error e => simp [runPagesAux] at h
    | ok xrefs =>
      simp only [runPagesAux] at h
      obtain ⟨ps, hl, hs⟩ := runPagesAux_ok env rest (k + 1) _ s' h
      refine ⟨xrefs :: ps, by rw [hl]; rfl, ?_⟩
      simp only [candStream, List.foldl_append]
      rw [hs]
      congr 1
      rw [List.foldl_map]
      rfl

theorem extract_ok_inv (env : PDFEnv) (pairs : List (Nat × ExtractedImageRecord))
    (h : (extract_images_from_pdf env).result = Except.ok pairs) :
    ∃ ps s, env.pages = ps.map Except.ok ∧ s.images = pairs ∧ pairs ≠ [] ∧
      LoopInv env (candStream 0 ps) s := by
  cases hopen : env.openError with
  | some e =>
    simp only [extract_images_from_pdf, hopen] at h
    simp at h
  | none =>
    cases hrun : runPagesAux env env.pages 0 initState with
    | error e =>
      simp only [extract_images_from_pdf, hopen, hrun] at h
      simp at h
    | ok s =>
      simp only [extract_images_from_pdf, hopen, hrun] at h
      by_cases hemp : s.images.isEmpty
      · simp only [if_pos hemp] at h
        simp at h
      · simp only [if_neg hemp] at h
        simp only [Except.ok.injEq] at h
        obtain ⟨ps, hl, hs⟩ := runPagesAux_ok env env.pages 0 initState s hrun
        refine ⟨ps, s, hl, h, ?_, ?_⟩
        · rw [← h]
          intro hnil
          rw [List.isEmpty_iff] at hemp
          exact hemp hnil
        · have hi := inv_fold env (candStream 0 ps) [] initState (initInv env)
            (by intro c _ d hd; simp at hd) (candStream_mono ps 0)
          rw [List.nil_append] at hi
          rw [← hs] at hi
          exact hi

/-- C1 (as stated, refuted): on `envC1` the under-sized xref 7 is referenced
on two pages yet produces zero records, not exactly one. -/
theorem claim_C1_counterexample : ¬ claimC1Statement := by
  intro h
  have hres : (extract_images_from_pdf envC1).result = Except.ok [(8, recC1)] := rfl
  have hc := (h envC1 [[7], [7], [8]] [(8, recC1)] 7 rfl hres ⟨[7], by simp, by simp⟩).1
  exact absurd hc (by decide)

/-- C1 (amended): in every successful result no two records share an xref,
each xref yields at most one record, and any record for an xref carries the
1-based index of the first page (in enumeration order) referencing it. -/
theorem claim_C1 (env : PDFEnv) (ps : List (List Nat))
    (pairs : List (Nat × ExtractedImageRecord)) (x : Nat)
    (hpages : env.pages = ps.map Except.ok)
    (h : (extract_images_from_pdf env).result = Except.ok pairs) :
    (pairs.map Prod.fst).Nodup ∧ (pairs.map Prod.fst).count x ≤ 1 ∧
    ∀ pr ∈ pairs, pr.1 = x →
      ∃ i, firstPageIdx x ps = some i ∧ pr.2.pageNumber = i + 1 := by
  obtain ⟨ps', s, hl, hs, _, hinv⟩ := extract_ok_inv env pairs h
  have hps : ps = ps' := by
    have hmm := hpages.symm.trans hl
    have hinj : Function.Injective (Except.ok : List Nat → Except String (List Nat)) :=
      fun a b hab => Except.ok.inj hab
    exact (List.map_injective_iff.mpr hinj) hmm
  have hnd : (pairs.map Prod.fst).Nodup := by
    rw [← hs]
    exact hinv.xrefs_nodup
  refine ⟨hnd, List.nodup_iff_count_le_one.mp hnd x, ?_⟩
  intro pr hpr hprx
  rw [← hs] at hpr
  obtain ⟨pil, _, _, i, h3, h4⟩ := hinv.prov pr hpr
  rw [firstOcc_candStream] at h3
  cases hf : firstPageIdx pr.1 ps' with
  | none =>
    rw [hf] at h3
    simp at h3
  | some j =>
    rw [hf] at h3
    simp only [Option.map_some'] at h3
    rw [Option.some_inj] at h3
    refine ⟨j, ?_, by omega⟩
    rw [hps, ← hprx]
    exact hf

/-- C1 witness: concrete run of the amended statement on `envC1`. -/
theorem claim_C1_witness :
    (([(8, recC1)] : List (Nat × ExtractedImageRecord)).map Prod.fst).Nodup ∧
    recC1.pageNumber = 3 := by
  have h := claim_C1 envC1 [[7], [7], [8]] [(8, recC1)] 8 rfl rfl
  obtain ⟨i, hi, hp⟩ := h.2.2 (8, recC1) (List.mem_singleton.mpr rfl) rfl
  have h2 : firstPageIdx 8 [[7], [7], [8]] = some 2 := by decide
  rw [h2, Option.some_inj] at hi
  have hp2 : recC1.pageNumber = i + 1 := hp
  refine ⟨h.1, ?_⟩
  rw [hp2, ← hi]

/-- C2: when the document opens, every page enumerates, and every
referenced xref is rejected by the filters, the pipeline raises the fixed
no-images message instead of returning an empty success, and the endpoint
reports it as HTTP 400 with that exact detail. -/
theorem claim_C2 (env : PDFEnv) (ps : List (List Nat))
    (hopen : env.openError = none) (hpages : env.pages = ps.map Except.ok)
    (hrej : ∀ x, (∃ page ∈ ps, x ∈ page) → resolveCandidate env x = none) :
    (extract_images_from_pdf env).result = Except.error noImagesMsg ∧
    (extract_images (some "application/pdf") env).response =
      Except.error { status := 400, detail := noImagesMsg } := by
  have hrun := runPagesAux_map_ok env ps 0 initState
  have hinv := inv_fold env (candStream 0 ps) [] initState (initInv env)
    (by intro c _ d hd; simp at hd) (candStream_mono ps 0)
  rw [List.nil_append] at hinv
  have hempty : ((candStream 0 ps).foldl (stepC env) initState).images = [] := by
    cases hsi : ((candStream 0 ps).foldl (stepC env) initState).images with
    | nil => rfl
    | cons pr rest =>
      obtain ⟨pil, hres, _, i, h3, _⟩ :=
        hinv.prov pr (by rw [hsi]; exact List.mem_cons_self pr rest)
      have hmem : pr.1 ∈ (candStream 0 ps).map Prod.snd :=
        List.mem_map.mpr ⟨(i, pr.1), firstOcc_mem h3, rfl⟩
      have hn := hrej pr.1 (candStream_snd.mp hmem)
      rw [hn] at hres
      exact absurd hres (by simp)
  have hpipe : (extract_images_from_pdf env).result = Except.error noImagesMsg := by
    simp only [extract_images_from_pdf, hopen, hpages, hrun, hempty, List.isEmpty_nil, if_true]
  refine ⟨hpipe, ?_⟩
  simp only [extract_images, hpipe]
  rfl

/-- C2 witness: a one-page document whose sole xref fails resolution. -/
theorem claim_C2_witness :
    (extract_images_from_pdf envW2).result = Except.error noImagesMsg ∧
    (extract_images (some "application/pdf") envW2).response =
      Except.error { status := 400, detail := noImagesMsg } :=
  claim_C2 envW2 [[5]] rfl rfl (fun _ _ => rfl)

/-- C3: every record of a successful result stems from a candidate whose
raw bytes resolved, measured at least 100 bytes, decoded, and whose decoded
width and height are both at least 10. -/
theorem claim_C3 (env : PDFEnv) (pairs : List (Nat × ExtractedImageRecord))
    (h : (extract_images_from_pdf env).result = Except.ok pairs) :
    ∀ pr ∈ pairs, ∃ raw pil, env.extract_image pr.1 = some raw ∧
      100 ≤ raw.bytes.length ∧ env.image_open raw.bytes = some pil ∧
      10 ≤ pil.width ∧ 10 ≤ pil.height := by
  obtain ⟨ps, s, _, hs, _, hinv⟩ := extract_ok_inv env pairs h
  intro pr hpr
  rw [← hs] at hpr
  obtain ⟨pil, hres, _, _⟩ := hinv.prov pr hpr
  obtain ⟨raw, hex, h1, hop, h3⟩ := resolveCandidate_eq_some.mp hres
  push_neg at h3
  exact ⟨raw, pil, hex, Nat.not_lt.mp h1, hop, h3.1, h3.2⟩

/-- C3 witness: the accepted candidate of `envC1` satisfies all floors. -/
theorem claim_C3_witness :
    envC1.extract_image 8 = some rawBig ∧ 100 ≤ rawBig.bytes.length ∧
    envC1.image_open rawBig.bytes = some pilW ∧ 10 ≤ pilW.width ∧ 10 ≤ pilW.height := by
  obtain ⟨raw, pil, hex, h1, hop, hw, hh⟩ :=
    claim_C3 envC1 [(8, recC1)] rfl (8, recC1) (List.mem_singleton.mpr rfl)
  have hraw : rawBig = raw :=
    Option.some_inj.mp ((show envC1.extract_image 8 = some rawBig from rfl).symm.trans hex)
  subst hraw
  have hpil : pilW = pil :=
    Option.some_inj.mp ((show envC1.image_open rawBig.bytes = some pilW from rfl).symm.trans hop)
  subst hpil
  exact ⟨hex, h1, hop, hw, hh⟩

/-- C4 (as stated, refuted): `normalizeColor` does not composite every
alpha-bearing mode onto white — the "LA" image `laImage` goes through the
generic conversion, which discards alpha instead of compositing. -/
theorem claim_C4_counterexample : ¬ claimC4Statement := by
  intro h
  have hla := h laImage (by decide)
  exact absurd hla (by decide)

/-- C4 (amended): for every alpha-bearing mode the normalized buffer is RGB
and fully opaque, but the white-composite is applied exactly to mode
"RGBA"; other alpha modes take the generic alpha-discarding conversion. -/
theorem claim_C4 (img : PILImage) (h : hasAlphaChannel img.mode = true) :
    (normalizeColor img).mode = "RGB" ∧
    (∀ p ∈ (normalizeColor img).pixels, p.a = 255) ∧
    (img.mode = "RGBA" → normalizeColor img = compositeOnWhite img) := by
  have hm : (img.mode = "RGBA" ∨ img.mode = "LA") ∨ img.mode = "PA" := by
    simp only [hasAlphaChannel, Bool.or_eq_true, decide_eq_true_eq] at h
    exact h
  rcases hm with (hm | hm) | hm
  · have hn : normalizeColor img = compositeOnWhite img := by
      unfold normalizeColor
      rw [if_pos hm]
    refine ⟨by rw [hn]; rfl, ?_, fun _ => hn⟩
    intro p hp
    rw [hn] at hp
    simp only [compositeOnWhite, List.mem_map] at hp
    obtain ⟨q, _, rfl⟩ := hp
    rfl
  · have hn : normalizeColor img = pilConvertRGB img := by
      unfold normalizeColor
      rw [hm, if_neg (by decide : ¬ ("LA" = "RGBA")), if_neg (by decide : ¬ ("LA" = "P")),
        if_pos (by decide : ¬ ("LA" = "RGB" ∨ "LA" = "L"))]
    refine ⟨by rw [hn]; rfl, ?_, ?_⟩
    · intro p hp
      rw [hn] at hp
      simp only [pilConvertRGB, List.mem_map] at hp
      obtain ⟨q, _, rfl⟩ := hp
      rfl
    · intro hrgba
      rw [hm] at hrgba
      exact absurd hrgba (by decide)
  · have hn : normalizeColor img = pilConvertRGB img := by
      unfold normalizeColor
      rw [hm, if_neg (by decide : ¬ ("PA" = "RGBA")), if_neg (by decide : ¬ ("PA" = "P")),
        if_pos (by decide : ¬ ("PA" = "RGB" ∨ "PA" = "L"))]
    refine ⟨by rw [hn]; rfl, ?_, ?_⟩
    · intro p hp
      rw [hn] at hp
      simp only [pilConvertRGB, List.mem_map] at hp
      obtain ⟨q, _, rfl⟩ := hp
      rfl
    · intro hrgba
      rw [hm] at hrgba
      exact absurd hrgba (by decide)

/-- C4 witness: the RGBA image `rgbaImage` is composited onto white and the
result is an RGB buffer. -/
theorem claim_C4_witness :
    (normalizeColor rgbaImage).mode = "RGB" ∧
    normalizeColor rgbaImage = compositeOnWhite rgbaImage := by
  have h := claim_C4 rgbaImage (by decide)
  exact ⟨h.1, h.2.2 rfl⟩

/-- C5: in every successful result the imageIndex values are exactly
1..len(result) in output order; skipped candidates consume no index. -/
theorem claim_C5 (env : PDFEnv) (pairs : List (Nat × ExtractedImageRecord))
    (h : (extract_images_from_pdf env).result = Except.ok pairs) :
    pairs.map (fun pr => pr.2.imageIndex) = List.range' 1 pairs.length := by
  obtain ⟨ps, s, _, hs, _, hinv⟩ := extract_ok_inv env pairs h
  rw [← hs]
  exact hinv.idx_seq

/-- C5 witness: on `envC1` the single record carries imageIndex 1 even
though an earlier candidate was skipped. -/
theorem claim_C5_witness :
    ([(8, recC1)] : List (Nat × ExtractedImageRecord)).map (fun pr => pr.2.imageIndex) =
      List.range' 1 ([(8, recC1)] : List (Nat × ExtractedImageRecord)).length :=
  claim_C5 envC1 [(8, recC1)] rfl

/-- C6 (code bug evidence): on a document whose page enumeration raises
after a successful open, the pipeline reports the wrapped error and the
endpoint still deletes the temporary file, but the document handle is never
closed — `close()` sits inside the `try`, not in a `finally`. -/
theorem claim_C6 :
    (extract_images_from_pdf envC6).docOpened = true ∧
    (extract_images_from_pdf envC6).docClosed = false ∧
    (extract_images_from_pdf envC6).result =
      Except.error ("Error processing PDF: " ++ "cannot parse page") ∧
    (extract_images (some "application/pdf") envC6).tmpDeleted = true :=
  ⟨rfl, rfl, rfl, rfl⟩

/-- C7: any upload whose content type is not `application/pdf` is rejected
with HTTP 400 "File must be a PDF" before the temporary file is created and
before any parsing is attempted. -/
theorem claim_C7 (ct : Option String) (env : PDFEnv) (h : ct ≠ some "application/pdf") :
    extract_images ct env =
      { response := Except.error { status := 400, detail := "File must be a PDF" },
        tmpCreated := false, tmpDeleted := false, docParsed := false } := by
  have hv : validPdfContentType ct = false := by
    cases ct with
    | none => rfl
    | some s =>
      have hs : ¬ (s = "application/pdf") := fun he => h (by rw [he])
      have hb : (s == "application/pdf") = false := by
        rw [beq_eq_false_iff_ne]
        exact hs
      simp [validPdfContentType, hb]
  simp [extract_images, hv]

/-- C7 witness: a `text/plain` upload on a concrete environment. -/
theorem claim_C7_witness :
    extract_images (some "text/plain") envW2 =
      { response := Except.error { status := 400, detail := "File must be a PDF" },
        tmpCreated := false, tmpDeleted := false, docParsed := false } :=
  claim_C7 (some "text/plain") envW2 (by decide)

/-- C8: every record's url is the WebP data URL: the accepted decoded image
is normalized, re-encoded with format "WEBP", quality 85 and method 6, and
the base64 of those bytes follows the fixed `data:image/webp;base64,`
prefix. -/
theorem claim_C8 (env : PDFEnv) (pairs : List (Nat × ExtractedImageRecord))
    (h : (extract_images_from_pdf env).result = Except.ok pairs) :
    ∀ pr ∈ pairs, ∃ raw pil, env.extract_image pr.1 = some raw ∧
      env.image_open raw.bytes = some pil ∧
      pr.2.url = "data:image/webp;base64," ++
        base64Encode (env.save (normalizeColor pil) "WEBP" 85 6) := by
  obtain ⟨ps, s, _, hs, _, hinv⟩ := extract_ok_inv env pairs h
  intro pr hpr
  rw [← hs] at hpr
  obtain ⟨pil, hres, hurl, _⟩ := hinv.prov pr hpr
  obtain ⟨raw, hex, _, hop, _⟩ := resolveCandidate_eq_some.mp hres
  exact ⟨raw, pil, hex, hop, hurl⟩

/-- C8 witness: the url of the record produced on `envC1`. -/
theorem claim_C8_witness :
    recC1.url = "data:image/webp;base64," ++
      base64Encode (envC1.save (normalizeColor pilW) "WEBP" 85 6) := by
  obtain ⟨raw, pil, hex, hop, hurl⟩ :=
    claim_C8 envC1 [(8, recC1)] rfl (8, recC1) (List.mem_singleton.mpr rfl)
  have hpil : pilW = pil :=
    Option.some_inj.mp ((show envC1.image_open raw.bytes = some pilW from rfl).symm.trans hop)
  subst hpil
  exact hurl

/-- C9: over one complete run of the page loop, no xref is passed to
`extract_image` twice (it is recorded in the seen set before resolution),
and an xref rejected by the filter chain never yields a record on any
page. -/
theorem claim_C9 (env : PDFEnv) (l : List (Except String (List Nat))) (s' : LoopState)
    (h : runPagesAux env l 0 initState = Except.ok s') :
    s'.calls.Nodup ∧
    ∀ x, resolveCandidate env x = none → ∀ pr ∈ s'.images, pr.1 ≠ x := by
  obtain ⟨ps, hl, hs⟩ := runPagesAux_ok env l 0 initState s' h
  have hinv := inv_fold env (candStream 0 ps) [] initState (initInv env)
    (by intro c _ d hd; simp at hd) (candStream_mono ps 0)
  rw [List.nil_append] at hinv
  rw [← hs] at hinv
  refine ⟨hinv.calls_nodup, ?_⟩
  intro x hx pr hpr hprx
  obtain ⟨pil, hres, _, _⟩ := hinv.prov pr hpr
  rw [hprx, hx] at hres
  exact absurd hres (by simp)

/-- C9 witness: on `envC1` each xref is resolved once and the record does
not come from the rejected xref 7. -/
theorem claim_C9_witness :
    sC1.calls.Nodup ∧ ((8 : Nat), recC1).1 ≠ 7 := by
  have h := claim_C9 envC1 envC1.pages sC1 rfl
  exact ⟨h.1, h.2 7 rfl (8, recC1) (List.mem_singleton.mpr rfl)⟩

/-- C10: pageNumbers of a successful result are non-decreasing in output
order, and each lies between 1 and the document's page count. -/
theorem claim_C10 (env : PDFEnv) (pairs : List (Nat × ExtractedImageRecord))
    (h : (extract_images_from_pdf env).result = Except.ok pairs) :
    List.Pairwise (fun a b => a ≤ b) (pairs.map (fun pr => pr.2.pageNumber)) ∧
    ∀ pr ∈ pairs, 1 ≤ pr.2.pageNumber ∧ pr.2.pageNumber ≤ env.pages.length := by
  obtain ⟨ps, s, hl, hs, _, hinv⟩ := extract_ok_inv env pairs h
  refine ⟨by rw [← hs]; exact hinv.pages_mono, ?_⟩
  intro pr hpr
  rw [← hs] at hpr
  obtain ⟨pil, _, _, i, h3, h4⟩ := hinv.prov pr hpr
  have hmem : (i, pr.1) ∈ candStream 0 ps := firstOcc_mem h3
  have hb := candStream_mem hmem
  have hb2 : i < ps.length := by simpa using hb.2
  rw [hl, List.length_map]
  omega

/-- C10 witness: the record of `envC1` sits on page 3 of 3. -/
theorem claim_C10_witness :
    List.Pairwise (fun a b => a ≤ b)
      (([(8, recC1)] : List (Nat × ExtractedImageRecord)).map (fun pr => pr.2.pageNumber)) ∧
    1 ≤ recC1.pageNumber ∧ recC1.pageNumber ≤ envC1.pages.length := by
  have h := claim_C10 envC1 [(8, recC1)] rfl
  exact ⟨h.1, h.2 (8, recC1) (List.mem_singleton.mpr rfl)⟩
